import Mathlib

/-!
# Verification of the Cassandra on-demand backend (`backend/app.py`)

A shallow embedding of the on-demand remote file discovery and caching
layer: filename grammar parsing (`LORES_RE`, `HIRES_RE`, `WAV_RE`),
per-line normalization (`list_frames_on_demand`, `list_wav_files` parse
loops), search-result collection and de-duplication, the result caches
(`get_cached_frames` / `get_cached_wav_files` / `cache_frames` /
`cache_wav_files`) and the SSH session pool (`get_ssh_connection`).

Python strings are modelled as `List Char`, wall-clock times as natural
numbers of seconds, and the remote side (paramiko) as explicit oracle
parameters: the raw stdout lines of each listing command, the outcome of
the search phase, the liveness probe and the freshly connected client.
-/

namespace Cassandra

instance {ε α : Type} [DecidableEq ε] [DecidableEq α] : DecidableEq (Except ε α) :=
  fun x y =>
    match x, y with
    | .ok a, .ok b =>
      if h : a = b then isTrue (by rw [h])
      else isFalse (fun hh => h (by injection hh))
    | .error a, .error b =>
      if h : a = b then isTrue (by rw [h])
      else isFalse (fun hh => h (by injection hh))
    | .ok _, .error _ => isFalse (fun hh => Except.noConfusion hh)
    | .error _, .ok _ => isFalse (fun hh => Except.noConfusion hh)

/-! ## Python string helpers -/

/-- Whitespace characters removed by Python's `str.strip()` (ASCII range). -/
def isPySpace (c : Char) : Bool :=
  c = ' ' || c = '\t' || c = '\n' || c = '\r' || c = '\x0b' || c = '\x0c'

/-- Python `line.strip()`: remove leading and trailing whitespace. -/
def pyStrip (l : List Char) : List Char :=
  ((l.dropWhile isPySpace).reverse.dropWhile isPySpace).reverse

/-- Python `full_path.replace('\\', '/')`: normalize separators to forward slashes. -/
def normalizeSeps (l : List Char) : List Char :=
  l.map (fun c => if c = '\\' then '/' else c)

/-- Python `os.path.basename` on a forward-slash path (the backend host is POSIX):
the suffix after the last `/`. -/
def basename (l : List Char) : List Char :=
  (l.reverse.takeWhile (fun c => !(c = '/'))).reverse

/-- Python's substring test `pat in s`. -/
def containsSub (pat : List Char) : List Char → Bool
  | [] => pat.isEmpty
  | c :: rest => pat.isPrefixOf (c :: rest) || containsSub pat rest

/-- Python's `s.replace(old, '', 1)`: delete the leftmost occurrence of
`old` in `s` (for an empty `old`, `s.replace('', '', 1) = s`). -/
def replaceFirst (old : List Char) : List Char → List Char
  | [] => []
  | c :: rest =>
    if old.isPrefixOf (c :: rest) then (c :: rest).drop old.length
    else c :: replaceFirst old rest

/-- The trailing-slash trim `if s.endswith('/'): s = s[:-1]` — removes one trailing slash. -/
def trimTrailingSlash (l : List Char) : List Char :=
  if l.getLast? = some '/' then l.dropLast else l

/-! ## Datetime (`datetime.strptime`) -/

def isLeap (y : Nat) : Bool :=
  (y % 4 = 0 && !(y % 100 = 0)) || y % 400 = 0

def daysInMonth (y m : Nat) : Nat :=
  if m = 2 then (if isLeap y then 29 else 28)
  else if m = 4 || m = 6 || m = 9 || m = 11 then 30
  else 31

/-- The `%y` directive: two-digit years 00–68 map to 2000–2068, 69–99 to 1969–1999. -/
def fullYear (y2 : Nat) : Nat :=
  if y2 ≤ 68 then 2000 + y2 else 1900 + y2

/-- A timezone-naive `datetime.datetime` value. -/
structure Timestamp where
  year : Nat
  month : Nat
  day : Nat
  hour : Nat
  minute : Nat
  second : Nat
deriving DecidableEq, Repr

/-- The field validation performed by `datetime.strptime` / the `datetime`
constructor: out-of-range fields raise `ValueError`, modelled as `none`.
The two-digit year is expanded by `fullYear`. -/
def mkDatetime (y2 mo d h mi s : Nat) : Option Timestamp :=
  let y := fullYear y2
  if 1 ≤ mo ∧ mo ≤ 12 ∧ 1 ≤ d ∧ d ≤ daysInMonth y mo ∧ h ≤ 23 ∧ mi ≤ 59 ∧ s ≤ 59
  then some ⟨y, mo, d, h, mi, s⟩ else none

def charVal (c : Char) : Nat := c.toNat - 48

def pairVal (a b : Char) : Nat := charVal a * 10 + charVal b

/-- Python `datetime.strptime(date + time, "%y%m%d%H%M%S")` for a 6-char date
fragment and a 6-char time fragment: each `%`-field consumes exactly two
of the digits; any other shape or a non-digit raises (`none`). -/
def strptimeSec (date tm : List Char) : Option Timestamp :=
  match date, tm with
  | [a, b, c, d, e, f], [g, h, i, j, k, l] =>
    if [a, b, c, d, e, f, g, h, i, j, k, l].all Char.isDigit then
      mkDatetime (pairVal a b) (pairVal c d) (pairVal e f)
        (pairVal g h) (pairVal i j) (pairVal k l)
    else none
  | _, _ => none

/-- Python `datetime.strptime(date + time, "%y%m%d%H%M")` for a 6-char date and a
4-char time: minute precision, seconds implicitly zero. -/
def strptimeMin (date tm : List Char) : Option Timestamp :=
  match date, tm with
  | [a, b, c, d, e, f], [g, h, i, j] =>
    if [a, b, c, d, e, f, g, h, i, j].all Char.isDigit then
      mkDatetime (pairVal a b) (pairVal c d) (pairVal e f)
        (pairVal g h) (pairVal i j) 0
    else none
  | _, _ => none

/-- Key for comparing timestamps; on `strptime`-validated fields it agrees
with Python's lexicographic `datetime` comparison. -/
def tsKey (t : Timestamp) : Nat :=
  ((((t.year * 13 + t.month) * 32 + t.day) * 24 + t.hour) * 60 + t.minute) * 60
    + t.second

/-! ## Filename grammars

`LORES_RE = ([^_]+)_LoResT_(\d{6})UTC(\d{4})\.jpg` (IGNORECASE),
`HIRES_RE = ([^_]+)_HiResT_(\d{6})UTC(\d{6})\.jpg`,
`WAV_RE = ([^_]+)_Audio_(\d{2})UTC(\d{6})\.wav`, all used through
`re.match` (anchored at the start only, so trailing text is allowed). -/

/-- The `([^_]+)_` part: the maximal nonempty run of non-underscore
characters, followed by a literal underscore (consumed). -/
def takeTag (l : List Char) : Option (List Char × List Char) :=
  let tag := l.takeWhile (fun c => !(c = '_'))
  match tag, l.dropWhile (fun c => !(c = '_')) with
  | [], _ => none
  | _, [] => none
  | t, _ :: r => some (t, r)

/-- Case-insensitive literal match (the `re.IGNORECASE` flag), returning
the rest of the input. -/
def matchCI : List Char → List Char → Option (List Char)
  | [], l => some l
  | _ :: _, [] => none
  | c :: cs, d :: ds => if c.toLower = d.toLower then matchCI cs ds else none

/-- A run of exactly `n` ASCII digits, the d-braced-n regex fragment. -/
def takeDigits : Nat → List Char → Option (List Char × List Char)
  | 0, l => some ([], l)
  | _ + 1, [] => none
  | n + 1, c :: l =>
    if c.isDigit then (takeDigits n l).map (fun p => (c :: p.1, p.2)) else none

/-- A single literal character (the escaped `\.`). -/
def matchChar (c : Char) : List Char → Option (List Char)
  | [] => none
  | d :: ds => if d = c then some ds else none

/-- The `re.match` of `([^_]+)_<marker>(\d{nd})UTC(\d{nt})\.<ext>` against a
filename, returning the three capture groups. -/
def matchGrammar (marker : List Char) (nd nt : Nat) (ext : List Char)
    (filename : List Char) : Option (List Char × List Char × List Char) :=
  match takeTag filename with
  | none => none
  | some (tag, r1) =>
    match matchCI marker r1 with
    | none => none
    | some r2 =>
      match takeDigits nd r2 with
      | none => none
      | some (d, r3) =>
        match matchCI ('U' :: 'T' :: 'C' :: []) r3 with
        | none => none
        | some r4 =>
          match takeDigits nt r4 with
          | none => none
          | some (t, r5) =>
            match matchChar '.' r5 with
            | none => none
            | some r6 =>
              match matchCI ext r6 with
              | none => none
              | some _ => some (tag, d, t)

def matchLoRes (filename : List Char) :
    Option (List Char × List Char × List Char) :=
  matchGrammar "LoResT_".toList 6 4 "jpg".toList filename

def matchHiRes (filename : List Char) :
    Option (List Char × List Char × List Char) :=
  matchGrammar "HiResT_".toList 6 6 "jpg".toList filename

def matchWav (filename : List Char) :
    Option (List Char × List Char × List Char) :=
  matchGrammar "Audio_".toList 2 6 "wav".toList filename

/-! ## Records and per-line normalization -/

/-- The `Frame` pydantic model. -/
structure Frame where
  station : List Char
  resolution : List Char
  timestamp : Timestamp
  url : List Char
deriving DecidableEq, Repr

/-- The `WavFile` pydantic model. -/
structure WavFile where
  station : List Char
  timestamp : Timestamp
  filename : List Char
  url : List Char
  remote_path : List Char
deriving DecidableEq, Repr

/-- URL construction shared by both parse loops:
normalize the configured remote root, trim one trailing slash, delete its
first occurrence from the full path, strip leading slashes, and prepend
`FILE_SERVER_URL` and the station segment. -/
def mkUrl (fileServer station remoteDir fullPath : List Char) : List Char :=
  let nrd := trimTrailingSlash (normalizeSeps remoteDir)
  let rel := (replaceFirst nrd fullPath).dropWhile (fun c => c = '/')
  fileServer ++ '/' :: station ++ '/' :: rel

/-- One iteration of the `/frames` parse loop (`app.py` lines 317–352):
strip, normalize separators, take the basename, set the resolution from
the `HiRes` path-substring test, then try `LORES_RE` before `HIRES_RE`.
A `strptime` failure propagates as an uncaught exception (`Except.error`);
a filename matching neither grammar is skipped (`Except.ok none`). -/
def parseFrameLine (fileServer station remoteDir line : List Char) :
    Except Unit (Option Frame) :=
  let fullPath := normalizeSeps (pyStrip line)
  let filename := basename fullPath
  let resolution :=
    if containsSub "HiRes".toList fullPath then "HiRes".toList
    else "LoRes".toList
  match matchLoRes filename with
  | some m =>
    match strptimeMin m.2.1 m.2.2 with
    | some ts =>
      .ok (some ⟨station, resolution, ts, mkUrl fileServer station remoteDir fullPath⟩)
    | none => .error ()
  | none =>
    match matchHiRes filename with
    | some m =>
      match strptimeSec m.2.1 m.2.2 with
      | some ts =>
        .ok (some ⟨station, resolution, ts, mkUrl fileServer station remoteDir fullPath⟩)
      | none => .error ()
    | none => .ok none

/-- One iteration of the `/wavs` parse loop (`app.py` lines 460–487):
on a `WAV_RE` match the full date is rebuilt as `date[:4] + day_str` from
the *requested* date string and parsed with `"%y%m%d%H%M%S"`. -/
def parseWavLine (fileServer station remoteDir reqDate line : List Char) :
    Except Unit (Option WavFile) :=
  let fullPath := normalizeSeps (pyStrip line)
  let filename := basename fullPath
  match matchWav filename with
  | some m =>
    match strptimeSec (reqDate.take 4 ++ m.2.1) m.2.2 with
    | some ts =>
      .ok (some ⟨station, ts, filename,
        mkUrl fileServer station remoteDir fullPath, fullPath⟩)
    | none => .error ()
  | none => .ok none

/-- The whole `/frames` parse loop over the collected lines. -/
def framesParse (fileServer station remoteDir : List Char) :
    List (List Char) → Except Unit (List Frame)
  | [] => .ok []
  | l :: ls =>
    match parseFrameLine fileServer station remoteDir l with
    | .error e => .error e
    | .ok none => framesParse fileServer station remoteDir ls
    | .ok (some f) =>
      match framesParse fileServer station remoteDir ls with
      | .error e => .error e
      | .ok rest => .ok (f :: rest)

/-- The whole `/wavs` parse loop over the collected lines. -/
def wavsParse (fileServer station remoteDir reqDate : List Char) :
    List (List Char) → Except Unit (List WavFile)
  | [] => .ok []
  | l :: ls =>
    match parseWavLine fileServer station remoteDir reqDate l with
    | .error e => .error e
    | .ok none => wavsParse fileServer station remoteDir reqDate ls
    | .ok (some w) =>
      match wavsParse fileServer station remoteDir reqDate ls with
      | .error e => .error e
      | .ok rest => .ok (w :: rest)

/-- Python `frames.sort(key=lambda x: x.timestamp, reverse=True)`: a stable sort
by descending timestamp. -/
def frameDesc (f g : Frame) : Prop := tsKey g.timestamp ≤ tsKey f.timestamp

instance : DecidableRel frameDesc := fun f g =>
  Nat.decLe (tsKey g.timestamp) (tsKey f.timestamp)

def wavDesc (f g : WavFile) : Prop := tsKey g.timestamp ≤ tsKey f.timestamp

instance : DecidableRel wavDesc := fun f g =>
  Nat.decLe (tsKey g.timestamp) (tsKey f.timestamp)

/-- Parse then sort: the `/frames` result computed from the collected lines. -/
def framesCompute (fileServer station remoteDir : List Char)
    (lines : List (List Char)) : Except Unit (List Frame) :=
  (framesParse fileServer station remoteDir lines).map (List.insertionSort frameDesc)

/-- Parse then sort: the `/wavs` result computed from the collected lines. -/
def wavsCompute (fileServer station remoteDir reqDate : List Char)
    (lines : List (List Char)) : Except Unit (List WavFile) :=
  (wavsParse fileServer station remoteDir reqDate lines).map
    (List.insertionSort wavDesc)

/-! ## Search-phase collection and de-duplication

The backend host is POSIX, so `remote_dir.replace('/', os.path.sep)` is the
identity and the glob patterns / reconstructed full paths keep the remote
root's forward slashes while joining components with literal backslashes. -/

/-- Full-path reconstruction for one listing command (`app.py` lines
295–298 and 419–422): base dir, a backslash, then the stripped line, for each nonempty
stripped stdout line. -/
def collectCmd (baseDir : List Char) (out : List (List Char)) : List (List Char) :=
  out.filterMap (fun line =>
    if pyStrip line = [] then none else some (baseDir ++ '\\' :: pyStrip line))

/-- The `/frames` collection: the LoRes command's lines then the HiRes
command's lines, with no de-duplication step. -/
def framesCollect (remoteDir : List Char) (loresOut hiresOut : List (List Char)) :
    List (List Char) :=
  collectCmd (remoteDir ++ "\\LoRes".toList) loresOut
    ++ collectCmd (remoteDir ++ "\\HiRes".toList) hiresOut

/-- The `/wavs` collection before de-duplication: the three progressively
broader patterns all list the same `Wav` directory. -/
def wavsCollect (remoteDir : List Char) (o1 o2 o3 : List (List Char)) :
    List (List Char) :=
  collectCmd (remoteDir ++ "\\Wav".toList) o1
    ++ collectCmd (remoteDir ++ "\\Wav".toList) o2
    ++ collectCmd (remoteDir ++ "\\Wav".toList) o3

/-- The `seen`-set loop of `app.py` lines 434–439. -/
def dedupGo {α : Type} [DecidableEq α] (seen : List α) : List α → List α
  | [] => []
  | x :: xs =>
    if x ∈ seen then dedupGo seen xs else x :: dedupGo (x :: seen) xs

/-- The `unique_lines` result: keep the first occurrence of each element, in order. -/
def dedupF {α : Type} [DecidableEq α] (l : List α) : List α := dedupGo [] l

/-- First-occurrence de-duplication stated recursively: keep the head,
drop its later occurrences, recurse. -/
def dedupRec {α : Type} [DecidableEq α] : List α → List α
  | [] => []
  | x :: xs => x :: dedupRec (xs.filter (fun y => decide (y ≠ x)))
termination_by l => l.length
decreasing_by
  simp only [List.length_cons]
  exact Nat.lt_succ_of_le (List.length_filter_le _ _)

/-- The line sequence `/wavs` hands to its parse loop. -/
def wavsSearchLines (remoteDir : List Char) (o1 o2 o3 : List (List Char)) :
    List (List Char) :=
  dedupF (wavsCollect remoteDir o1 o2 o3)

/-- The record the `/frames` loop keeps for a line: `some` when a grammar
matched and `strptime` succeeded, `none` when the line was skipped. -/
def recordOfF (fileServer station remoteDir l : List Char) : Option Frame :=
  match parseFrameLine fileServer station remoteDir l with
  | .ok o => o
  | .error _ => none

/-- The record the `/wavs` loop keeps for a line. -/
def recordOfW (fileServer station remoteDir reqDate l : List Char) : Option WavFile :=
  match parseWavLine fileServer station remoteDir reqDate l with
  | .ok o => o
  | .error _ => none

/-- Does the line's bare filename match one of the `/frames` grammars? -/
def lineMatchesF (l : List Char) : Bool :=
  (matchLoRes (basename (normalizeSeps (pyStrip l)))).isSome
    || (matchHiRes (basename (normalizeSeps (pyStrip l)))).isSome

/-- Does the line's bare filename match the audio grammar? -/
def lineMatchesW (l : List Char) : Bool :=
  (matchWav (basename (normalizeSeps (pyStrip l)))).isSome

/-! ## Result caches and endpoint handlers

`_wav_cache` / `_frame_cache` are Python dicts from key strings to
`(data, time.time())` pairs, modelled as association lists with unique
keys (insertion replaces). Wall-clock time is a natural number of
seconds. The search/normalize phase behind a cache miss is abstracted by
an `Option` oracle: `some result` when the cycle succeeds (possibly with
an empty result) and `none` when it raises (SSH failure → HTTP 500). -/

def WAV_CACHE_DURATION : Nat := 60

def FRAME_CACHE_DURATION : Nat := 120

/-- A station entry of `stations.yaml` as the handlers consume it. -/
structure StationCfg where
  host : List Char
  username : List Char
  port : Nat
  remote_base : List Char
deriving DecidableEq, Repr

/-- The WAV cache key: station, underscore, date, concatenated. -/
def wavKey (station date : List Char) : List Char := station ++ '_' :: date

/-- The frame cache key: the literal frames marker, station, date,
underscore-joined. -/
def frameKey (station date : List Char) : List Char :=
  "frames_".toList ++ station ++ '_' :: date

abbrev CacheMap (β : Type) : Type := List (List Char × (List β × Nat))

/-- Python `del` of a cache key. -/
def eraseKey {β : Type} (key : List Char) (m : CacheMap β) : CacheMap β :=
  m.filter (fun p => !(p.1 == key))

/-- Store `(data, time.time())` under the key, replacing any old entry. -/
def cacheInsert {β : Type} (key : List Char) (v : List β × Nat)
    (m : CacheMap β) : CacheMap β :=
  (key, v) :: eraseKey key m

/-- The lookups `get_cached_wav_files` / `get_cached_frames`: return the entry while
`now - timestamp < dur`, otherwise delete the expired entry and miss. -/
def cacheLookup {β : Type} (dur : Nat) (key : List Char) (now : Nat)
    (m : CacheMap β) : Option (List β) × CacheMap β :=
  match List.lookup key m with
  | none => (none, m)
  | some (data, t) => if now - t < dur then (some data, m) else (none, eraseKey key m)

/-- An HTTP outcome: a JSON list body or an `HTTPException` status. -/
inductive Resp (β : Type) where
  | ok (data : List β)
  | err (status : Nat)
deriving DecidableEq

/-- The endpoint `list_frames_on_demand`, around the abstracted search/normalize
phase: cache lookup first, then the station-registry check (400), the
`remote_base` truthiness check (500), then the remote cycle — `none`
raises 500, `some frames` is cached and returned. The returned `Bool`
records whether the remote was contacted. -/
def framesHandler (stations : List (List Char × StationCfg))
    (remote : Option (List Frame)) (station date : List Char) (now : Nat)
    (m : CacheMap Frame) : Resp Frame × CacheMap Frame × Bool :=
  match cacheLookup FRAME_CACHE_DURATION (frameKey station date) now m with
  | (some cached, m1) => (.ok cached, m1, false)
  | (none, m1) =>
    match List.lookup station stations with
    | none => (.err 400, m1, false)
    | some cfg =>
      if cfg.remote_base = [] then (.err 500, m1, false)
      else
        match remote with
        | none => (.err 500, m1, true)
        | some frames =>
          (.ok frames, cacheInsert (frameKey station date) (frames, now) m1, true)

/-- The endpoint `list_wav_files`, same shape with the WAV cache and key. -/
def wavsHandler (stations : List (List Char × StationCfg))
    (remote : Option (List WavFile)) (station date : List Char) (now : Nat)
    (m : CacheMap WavFile) : Resp WavFile × CacheMap WavFile × Bool :=
  match cacheLookup WAV_CACHE_DURATION (wavKey station date) now m with
  | (some cached, m1) => (.ok cached, m1, false)
  | (none, m1) =>
    match List.lookup station stations with
    | none => (.err 400, m1, false)
    | some cfg =>
      if cfg.remote_base = [] then (.err 500, m1, false)
      else
        match remote with
        | none => (.err 500, m1, true)
        | some wavs =>
          (.ok wavs, cacheInsert (wavKey station date) (wavs, now) m1, true)

/-- The pair of module-level result caches. -/
structure Caches where
  wav : CacheMap WavFile
  frame : CacheMap Frame

/-- Cache states reachable from process start through the two endpoints
and `/cache/clear`, with every request's date string satisfying `P`
(`P := fun d => True` is the unrestricted system). Station, date, request
time, and the remote oracle are arbitrary at every step. -/
inductive Reach (stations : List (List Char × StationCfg))
    (P : List Char → Prop) : Caches → Prop
  | init : Reach stations P ⟨[], []⟩
  | framesStep (c : Caches) (remote : Option (List Frame))
      (station date : List Char) (now : Nat) :
      Reach stations P c → P date →
      Reach stations P
        ⟨c.wav, (framesHandler stations remote station date now c.frame).2.1⟩
  | wavsStep (c : Caches) (remote : Option (List WavFile))
      (station date : List Char) (now : Nat) :
      Reach stations P c → P date →
      Reach stations P
        ⟨(wavsHandler stations remote station date now c.wav).2.1, c.frame⟩
  | clearStep (c : Caches) : Reach stations P c → Reach stations P ⟨[], []⟩

/-- Every key of the cache is `pre ++ s ++ '_' :: d` for some registered
station `s` and 6-character date `d` — the invariant maintained by the
handlers when request dates are well-formed (`YYMMDD`). -/
abbrev cacheKeysGood {β : Type} (stations : List (List Char × StationCfg))
    (pre : List Char) (m : CacheMap β) : Prop :=
  ∀ p ∈ m, ∃ s d cfg, List.lookup s stations = some cfg
    ∧ d.length = 6 ∧ p.1 = pre ++ s ++ '_' :: d

/-! ## SSH session pool (`get_ssh_connection`)

Paramiko clients are modelled by identifiers. The environment is given by
`probe` (does `exec_command("echo test", timeout=2)` on a pooled client
succeed?) and `connectRes` (the freshly connected client, or `none` when
`client.connect` raises). The result reports the acquired client, the
new pool, the list of `close()`d clients, and whether a new connection
was established. -/

abbrev Pool : Type := List (List Char × Nat)

/-- The pool key: user, at-sign, host, colon, port, concatenated. -/
def connectionKey (cfg : StationCfg) : List Char :=
  cfg.username ++ '@' :: cfg.host ++ ':' :: Nat.toDigits 10 cfg.port

def poolErase (key : List Char) (p : Pool) : Pool :=
  p.filter (fun q => !(q.1 == key))

def poolInsert (key : List Char) (v : Nat) (p : Pool) : Pool :=
  (key, v) :: poolErase key p

/-- The pool operation `get_ssh_connection` (`app.py` lines 34–73). -/
def acquire (probe : Nat → Bool) (connectRes : Option Nat) (cfg : StationCfg)
    (pool : Pool) : Option Nat × Pool × List Nat × Bool :=
  let key := connectionKey cfg
  match List.lookup key pool with
  | some client =>
    if probe client then (some client, pool, [], false)
    else
      match connectRes with
      | some c => (some c, poolInsert key c (poolErase key pool), [client], true)
      | none => (none, poolErase key pool, [client], true)
  | none =>
    match connectRes with
    | some c => (some c, poolInsert key c pool, [], true)
    | none => (none, pool, [], true)

/-! ## Helper lemmas -/

theorem lookup_eraseKey_self {β : Type} (key : List Char) (m : CacheMap β) :
    List.lookup key (eraseKey key m) = none := by
  induction m with
  | nil => rfl
  | cons p rest ih =>
    by_cases h : p.1 = key
    · simpa [eraseKey, List.filter, h] using ih
    · have hb : (p.1 == key) = false := beq_eq_false_iff_ne.mpr h
      have hb' : (key == p.1) = false := beq_eq_false_iff_ne.mpr (Ne.symm h)
      simp only [eraseKey, List.filter, hb, Bool.not_false]
      simpa [eraseKey, List.lookup, hb'] using ih

/-! ## Claims about the result cache -/

/-- C2: a fresh cache entry for a (station, date) key is returned exactly
as stored — identical content and order — with no remote search and no
cache write, for both kinds and their fixed durations (60 s audio, 120 s
frames); and on a miss an empty search outcome is cached and served as a
valid result. -/
theorem fresh_cache_hit_serves_cached
    (stations : List (List Char × StationCfg))
    (rF : Option (List Frame)) (rW : Option (List WavFile))
    (station date : List Char) (now : Nat)
    (mF : CacheMap Frame) (mW : CacheMap WavFile)
    (dataF : List Frame) (tF : Nat) (dataW : List WavFile) (tW : Nat)
    (mF' : CacheMap Frame) (mW' : CacheMap WavFile) (cfg : StationCfg)
    (hF : List.lookup (frameKey station date) mF = some (dataF, tF))
    (hFfresh : now - tF < FRAME_CACHE_DURATION)
    (hW : List.lookup (wavKey station date) mW = some (dataW, tW))
    (hWfresh : now - tW < WAV_CACHE_DURATION)
    (hFmiss : List.lookup (frameKey station date) mF' = none)
    (hWmiss : List.lookup (wavKey station date) mW' = none)
    (hreg : List.lookup station stations = some cfg)
    (hrb : cfg.remote_base ≠ []) :
    framesHandler stations rF station date now mF = (.ok dataF, mF, false)
    ∧ wavsHandler stations rW station date now mW = (.ok dataW, mW, false)
    ∧ framesHandler stations (some []) station date now mF'
        = (.ok [], cacheInsert (frameKey station date) ([], now) mF', true)
    ∧ wavsHandler stations (some []) station date now mW'
        = (.ok [], cacheInsert (wavKey station date) ([], now) mW', true) := by
  refine ⟨?_, ?_, ?_, ?_⟩
  · simp [framesHandler, cacheLookup, hF, hFfresh]
  · simp [wavsHandler, cacheLookup, hW, hWfresh]
  · simp [framesHandler, cacheLookup, hFmiss, hreg, hrb]
  · simp [wavsHandler, cacheLookup, hWmiss, hreg, hrb]

/-- Witness for C2 at a concrete state: a frames cache holding an entry
inserted at time 100 and read at time 150, a wav cache read at time 150
with an entry from time 100, both fresh; the fresh entries are served
unchanged (the cached wav sequence is empty, served as a valid result)
and a miss with an empty outcome caches it. -/
theorem fresh_cache_hit_serves_cached_witness :
    framesHandler [("S".toList, ⟨"h".toList, "u".toList, 22, "C:/VLF".toList⟩)]
        none "S".toList "250411".toList 150
        [(frameKey "S".toList "250411".toList, ([], 100))]
      = (.ok [], [(frameKey "S".toList "250411".toList, ([], 100))], false)
    ∧ wavsHandler [("S".toList, ⟨"h".toList, "u".toList, 22, "C:/VLF".toList⟩)]
        none "S".toList "250411".toList 150
        [(wavKey "S".toList "250411".toList, ([], 100))]
      = (.ok [], [(wavKey "S".toList "250411".toList, ([], 100))], false)
    ∧ framesHandler [("S".toList, ⟨"h".toList, "u".toList, 22, "C:/VLF".toList⟩)]
        (some []) "S".toList "250411".toList 150 []
      = (.ok [], cacheInsert (frameKey "S".toList "250411".toList) ([], 150) [], true)
    ∧ wavsHandler [("S".toList, ⟨"h".toList, "u".toList, 22, "C:/VLF".toList⟩)]
        (some []) "S".toList "250411".toList 150 []
      = (.ok [], cacheInsert (wavKey "S".toList "250411".toList) ([], 150) [], true) :=
  fresh_cache_hit_serves_cached
    [("S".toList, ⟨"h".toList, "u".toList, 22, "C:/VLF".toList⟩)]
    none none "S".toList "250411".toList 150
    [(frameKey "S".toList "250411".toList, ([], 100))]
    [(wavKey "S".toList "250411".toList, ([], 100))]
    [] 100 [] 100 [] [] ⟨"h".toList, "u".toList, 22, "C:/VLF".toList⟩
    (by decide) (by decide) (by decide) (by decide) (by decide) (by decide)
    (by decide) (by decide)

/-- C10: an expired entry is deleted by the lookup itself; if the remote
search then fails the handler answers 500 without writing the cache, so
afterwards the cache holds no entry for that key, for both kinds. -/
theorem expired_entry_deleted_failed_refresh_not_cached
    (stations : List (List Char × StationCfg))
    (station date : List Char) (now : Nat)
    (mF : CacheMap Frame) (mW : CacheMap WavFile)
    (dataF : List Frame) (tF : Nat) (dataW : List WavFile) (tW : Nat)
    (cfg : StationCfg)
    (hF : List.lookup (frameKey station date) mF = some (dataF, tF))
    (hFstale : ¬ (now - tF < FRAME_CACHE_DURATION))
    (hW : List.lookup (wavKey station date) mW = some (dataW, tW))
    (hWstale : ¬ (now - tW < WAV_CACHE_DURATION))
    (hreg : List.lookup station stations = some cfg)
    (hrb : cfg.remote_base ≠ []) :
    framesHandler stations none station date now mF
      = (.err 500, eraseKey (frameKey station date) mF, true)
    ∧ List.lookup (frameKey station date)
        ((framesHandler stations none station date now mF).2.1) = none
    ∧ wavsHandler stations none station date now mW
      = (.err 500, eraseKey (wavKey station date) mW, true)
    ∧ List.lookup (wavKey station date)
        ((wavsHandler stations none station date now mW).2.1) = none := by
  have hf : framesHandler stations none station date now mF
      = (.err 500, eraseKey (frameKey station date) mF, true) := by
    simp [framesHandler, cacheLookup, hF, hFstale, hreg, hrb]
  have hw : wavsHandler stations none station date now mW
      = (.err 500, eraseKey (wavKey station date) mW, true) := by
    simp [wavsHandler, cacheLookup, hW, hWstale, hreg, hrb]
  refine ⟨hf, ?_, hw, ?_⟩
  · rw [hf]; exact lookup_eraseKey_self _ _
  · rw [hw]; exact lookup_eraseKey_self _ _

/-- Witness for C10: singleton caches whose entries were written at time
0 and are read at time 1000, past both durations, with a failing remote. -/
theorem expired_entry_deleted_failed_refresh_not_cached_witness :
    framesHandler [("S".toList, ⟨"h".toList, "u".toList, 22, "C:/VLF".toList⟩)]
        none "S".toList "250411".toList 1000
        [(frameKey "S".toList "250411".toList, ([], 0))]
      = (.err 500, eraseKey (frameKey "S".toList "250411".toList)
          [(frameKey "S".toList "250411".toList, ([], 0))], true)
    ∧ List.lookup (frameKey "S".toList "250411".toList)
        ((framesHandler [("S".toList, ⟨"h".toList, "u".toList, 22, "C:/VLF".toList⟩)]
          none "S".toList "250411".toList 1000
          [(frameKey "S".toList "250411".toList, ([], 0))]).2.1) = none
    ∧ wavsHandler [("S".toList, ⟨"h".toList, "u".toList, 22, "C:/VLF".toList⟩)]
        none "S".toList "250411".toList 1000
        [(wavKey "S".toList "250411".toList, ([], 0))]
      = (.err 500, eraseKey (wavKey "S".toList "250411".toList)
          [(wavKey "S".toList "250411".toList, ([], 0))], true)
    ∧ List.lookup (wavKey "S".toList "250411".toList)
        ((wavsHandler [("S".toList, ⟨"h".toList, "u".toList, 22, "C:/VLF".toList⟩)]
          none "S".toList "250411".toList 1000
          [(wavKey "S".toList "250411".toList, ([], 0))]).2.1) = none :=
  expired_entry_deleted_failed_refresh_not_cached
    [("S".toList, ⟨"h".toList, "u".toList, 22, "C:/VLF".toList⟩)]
    "S".toList "250411".toList 1000
    [(frameKey "S".toList "250411".toList, ([], 0))]
    [(wavKey "S".toList "250411".toList, ([], 0))]
    [] 0 [] 0 ⟨"h".toList, "u".toList, 22, "C:/VLF".toList⟩
    (by decide) (by decide) (by decide) (by decide) (by decide) (by decide)

/-! ## Claim about the session pool -/

/-- C3: acquiring for a key already pooled returns that very client when
the liveness probe succeeds, with no new connection and the pool
unchanged; when the probe fails the old client is closed exactly once,
removed, and the newly connected client is stored under the key and
returned. -/
theorem pool_acquire_reuse_or_replace
    (probe : Nat → Bool) (connectRes : Option Nat) (cfg : StationCfg)
    (pool : Pool) (client c : Nat)
    (hit : List.lookup (connectionKey cfg) pool = some client) :
    (probe client = true →
      acquire probe connectRes cfg pool = (some client, pool, [], false))
    ∧ (probe client = false → connectRes = some c →
      acquire probe connectRes cfg pool
        = (some c, poolInsert (connectionKey cfg) c (poolErase (connectionKey cfg) pool),
            [client], true)
      ∧ List.lookup (connectionKey cfg)
          (poolInsert (connectionKey cfg) c (poolErase (connectionKey cfg) pool)) = some c
      ∧ List.count client [client] = 1) := by
  constructor
  · intro hp
    simp [acquire, hit, hp]
  · intro hp hc
    subst hc
    refine ⟨by simp [acquire, hit, hp], ?_, by simp⟩
    simp [poolInsert, List.lookup]

/-- Witness for C3: a pool holding client 7 for the key of a concrete
station config; a succeeding probe returns 7 unchanged, and a failing
probe with fresh client 9 closes 7 once and stores 9. -/
theorem pool_acquire_reuse_or_replace_witness :
    (decide (7 = 7) = true →
      acquire (fun n : Nat => decide (n = 7)) (some 9)
          ⟨"h".toList, "u".toList, 22, "C:/VLF".toList⟩
          [(connectionKey ⟨"h".toList, "u".toList, 22, "C:/VLF".toList⟩, 7)]
        = (some 7, [(connectionKey ⟨"h".toList, "u".toList, 22, "C:/VLF".toList⟩, 7)],
            [], false))
    ∧ (decide (7 = 7) = false → some 9 = some 9 →
      acquire (fun n : Nat => decide (n = 7)) (some 9)
          ⟨"h".toList, "u".toList, 22, "C:/VLF".toList⟩
          [(connectionKey ⟨"h".toList, "u".toList, 22, "C:/VLF".toList⟩, 7)]
        = (some 9, poolInsert (connectionKey ⟨"h".toList, "u".toList, 22, "C:/VLF".toList⟩) 9
            (poolErase (connectionKey ⟨"h".toList, "u".toList, 22, "C:/VLF".toList⟩)
              [(connectionKey ⟨"h".toList, "u".toList, 22, "C:/VLF".toList⟩, 7)]),
            [7], true)
      ∧ List.lookup (connectionKey ⟨"h".toList, "u".toList, 22, "C:/VLF".toList⟩)
          (poolInsert (connectionKey ⟨"h".toList, "u".toList, 22, "C:/VLF".toList⟩) 9
            (poolErase (connectionKey ⟨"h".toList, "u".toList, 22, "C:/VLF".toList⟩)
              [(connectionKey ⟨"h".toList, "u".toList, 22, "C:/VLF".toList⟩, 7)])) = some 9
      ∧ List.count 7 [7] = 1) :=
  pool_acquire_reuse_or_replace (fun n : Nat => decide (n = 7)) (some 9)
    ⟨"h".toList, "u".toList, 22, "C:/VLF".toList⟩
    [(connectionKey ⟨"h".toList, "u".toList, 22, "C:/VLF".toList⟩, 7)] 7 9
    (by decide)

/-! ## Grammar roundtrip lemmas -/

theorem takeWhile_ne_append (tag r : List Char) (hu : ∀ c ∈ tag, c ≠ '_') :
    (tag ++ '_' :: r).takeWhile (fun c => !(c = '_')) = tag := by
  induction tag with
  | nil => simp
  | cons c t ih =>
    have hc : c ≠ '_' := hu c (by simp)
    simp [List.takeWhile_cons, hc, ih (fun x hx => hu x (List.mem_cons_of_mem _ hx))]

theorem dropWhile_ne_append (tag r : List Char) (hu : ∀ c ∈ tag, c ≠ '_') :
    (tag ++ '_' :: r).dropWhile (fun c => !(c = '_')) = '_' :: r := by
  induction tag with
  | nil => simp
  | cons c t ih =>
    have hc : c ≠ '_' := hu c (by simp)
    simp [List.dropWhile_cons, hc, ih (fun x hx => hu x (List.mem_cons_of_mem _ hx))]

theorem takeTag_append (tag r : List Char) (htag : tag ≠ [])
    (hu : ∀ c ∈ tag, c ≠ '_') :
    takeTag (tag ++ '_' :: r) = some (tag, r) := by
  unfold takeTag
  rw [takeWhile_ne_append _ _ hu, dropWhile_ne_append _ _ hu]
  cases tag with
  | nil => exact absurd rfl htag
  | cons c t => rfl

theorem matchCI_self_append (lit r : List Char) : matchCI lit (lit ++ r) = some r := by
  induction lit with
  | nil => rfl
  | cons c cs ih => simp [matchCI, ih]

theorem takeDigits_append (d r : List Char) (hd : d.all Char.isDigit = true) :
    takeDigits d.length (d ++ r) = some (d, r) := by
  induction d with
  | nil => rfl
  | cons c t ih =>
    simp only [List.all_cons, Bool.and_eq_true] at hd
    simp [takeDigits, hd.1, ih hd.2]

theorem matchGrammar_append (marker ext tag d t r : List Char)
    (htag : tag ≠ []) (hu : ∀ c ∈ tag, c ≠ '_')
    (hd : d.all Char.isDigit = true) (ht : t.all Char.isDigit = true) :
    matchGrammar marker d.length t.length ext
      (tag ++ '_' :: (marker ++ (d ++ ('U' :: 'T' :: 'C' :: (t ++ ('.' :: (ext ++ r)))))))
      = some (tag, d, t) := by
  have hutc : ∀ s : List Char,
      matchCI ('U' :: 'T' :: 'C' :: []) ('U' :: 'T' :: 'C' :: s) = some s :=
    fun s => matchCI_self_append ('U' :: 'T' :: 'C' :: []) s
  have hdot : ∀ s : List Char, matchChar '.' ('.' :: s) = some s := by
    intro s; simp [matchChar]
  unfold matchGrammar
  rw [takeTag_append _ _ htag hu]
  simp only [matchCI_self_append, takeDigits_append _ _ hd, hutc,
    takeDigits_append _ _ ht, hdot, matchCI_self_append]

/-! ## Claim about resolution detection -/

/-- C5: every `/frames` record's resolution is `HiRes` exactly when the
separator-normalized full path contains the substring `HiRes`, and
`LoRes` otherwise — the path test decides, whichever grammar matched. -/
theorem resolution_from_path
    (fileServer station remoteDir line : List Char) (f : Frame)
    (h : parseFrameLine fileServer station remoteDir line = .ok (some f)) :
    f.resolution =
      (if containsSub "HiRes".toList (normalizeSeps (pyStrip line))
       then "HiRes".toList else "LoRes".toList) := by
  simp only [parseFrameLine] at h
  split at h
  · split at h
    · injection h with h'; injection h' with h''
      subst h''; rfl
    · exact absurd h (by simp)
  · split at h
    · split at h
      · injection h with h'; injection h' with h''
        subst h''; rfl
      · exact absurd h (by simp)
    · exact absurd h (by simp)

/-- Witness for C5 at a path that exercises the precedence: a file whose
name matches the LoRes grammar but which sits under the `HiRes`
subfolder is reported as `HiRes`. -/
theorem resolution_from_path_witness :
    parseFrameLine "F".toList "S".toList "C:/VLF".toList
        "C:\\VLF\\HiRes\\G1_LoResT_250411UTC0700.jpg".toList
      = .ok (some ⟨"S".toList, "HiRes".toList, ⟨2025, 4, 11, 7, 0, 0⟩,
          "F/S/HiRes/G1_LoResT_250411UTC0700.jpg".toList⟩)
    ∧ Frame.resolution ⟨"S".toList, "HiRes".toList, ⟨2025, 4, 11, 7, 0, 0⟩,
          "F/S/HiRes/G1_LoResT_250411UTC0700.jpg".toList⟩
      = (if containsSub "HiRes".toList
            (normalizeSeps (pyStrip "C:\\VLF\\HiRes\\G1_LoResT_250411UTC0700.jpg".toList))
         then "HiRes".toList else "LoRes".toList) :=
  ⟨by decide,
   resolution_from_path "F".toList "S".toList "C:/VLF".toList
     "C:\\VLF\\HiRes\\G1_LoResT_250411UTC0700.jpg".toList
     ⟨"S".toList, "HiRes".toList, ⟨2025, 4, 11, 7, 0, 0⟩,
       "F/S/HiRes/G1_LoResT_250411UTC0700.jpg".toList⟩ (by decide)⟩

/-! ## Claims about the image grammars -/

/-- C8: for every valid `<tag>_LoResT_YYMMDDUTCHHMM.jpg` the parser
recovers exactly the encoded tag, date and time digits, and the timestamp
parses `YYMMDDHHMM` at minute precision (seconds zero); for every valid
`<tag>_HiResT_YYMMDDUTCHHMMSS.jpg` the timestamp has second precision
from the 6-digit time field. -/
theorem lores_hires_parser_roundtrip
    (tag : List Char) (y1 y2 mo1 mo2 d1 d2 h1 h2 mi1 mi2 s1 s2 : Char)
    (htag : tag ≠ []) (hu : ∀ c ∈ tag, c ≠ '_')
    (hdig : [y1, y2, mo1, mo2, d1, d2, h1, h2, mi1, mi2, s1, s2].all Char.isDigit = true)
    (hmo1 : 1 ≤ pairVal mo1 mo2) (hmo2 : pairVal mo1 mo2 ≤ 12)
    (hd1 : 1 ≤ pairVal d1 d2)
    (hd2 : pairVal d1 d2 ≤ daysInMonth (fullYear (pairVal y1 y2)) (pairVal mo1 mo2))
    (hh : pairVal h1 h2 ≤ 23) (hmi : pairVal mi1 mi2 ≤ 59) (hs : pairVal s1 s2 ≤ 59) :
    matchLoRes (tag ++ "_LoResT_".toList ++ [y1, y2, mo1, mo2, d1, d2]
        ++ "UTC".toList ++ [h1, h2, mi1, mi2] ++ ".jpg".toList)
      = some (tag, [y1, y2, mo1, mo2, d1, d2], [h1, h2, mi1, mi2])
    ∧ strptimeMin [y1, y2, mo1, mo2, d1, d2] [h1, h2, mi1, mi2]
      = some ⟨fullYear (pairVal y1 y2), pairVal mo1 mo2, pairVal d1 d2,
          pairVal h1 h2, pairVal mi1 mi2, 0⟩
    ∧ matchHiRes (tag ++ "_HiResT_".toList ++ [y1, y2, mo1, mo2, d1, d2]
        ++ "UTC".toList ++ [h1, h2, mi1, mi2, s1, s2] ++ ".jpg".toList)
      = some (tag, [y1, y2, mo1, mo2, d1, d2], [h1, h2, mi1, mi2, s1, s2])
    ∧ strptimeSec [y1, y2, mo1, mo2, d1, d2] [h1, h2, mi1, mi2, s1, s2]
      = some ⟨fullYear (pairVal y1 y2), pairVal mo1 mo2, pairVal d1 d2,
          pairVal h1 h2, pairVal mi1 mi2, pairVal s1 s2⟩ := by
  have hD : [y1, y2, mo1, mo2, d1, d2].all Char.isDigit = true := by
    have h12 : ([y1, y2, mo1, mo2, d1, d2]
        ++ [h1, h2, mi1, mi2, s1, s2]).all Char.isDigit = true := hdig
    rw [List.all_append, Bool.and_eq_true] at h12
    exact h12.1
  have hT6 : [h1, h2, mi1, mi2, s1, s2].all Char.isDigit = true := by
    have h12 : ([y1, y2, mo1, mo2, d1, d2]
        ++ [h1, h2, mi1, mi2, s1, s2]).all Char.isDigit = true := hdig
    rw [List.all_append, Bool.and_eq_true] at h12
    exact h12.2
  have hT4 : [h1, h2, mi1, mi2].all Char.isDigit = true := by
    have h6 : ([h1, h2, mi1, mi2] ++ [s1, s2]).all Char.isDigit = true := hT6
    rw [List.all_append, Bool.and_eq_true] at h6
    exact h6.1
  refine ⟨?_, ?_, ?_, ?_⟩
  · have heq : tag ++ "_LoResT_".toList ++ [y1, y2, mo1, mo2, d1, d2]
        ++ "UTC".toList ++ [h1, h2, mi1, mi2] ++ ".jpg".toList
        = tag ++ '_' :: ("LoResT_".toList ++ ([y1, y2, mo1, mo2, d1, d2]
            ++ ('U' :: 'T' :: 'C' :: ([h1, h2, mi1, mi2]
              ++ ('.' :: ("jpg".toList ++ [])))))) := by
      simp only [List.append_assoc]; rfl
    unfold matchLoRes
    rw [heq]
    exact matchGrammar_append "LoResT_".toList "jpg".toList tag
      [y1, y2, mo1, mo2, d1, d2] [h1, h2, mi1, mi2] [] htag hu hD hT4
  · have hall : [y1, y2, mo1, mo2, d1, d2, h1, h2, mi1, mi2].all Char.isDigit = true := by
      have h10 : ([y1, y2, mo1, mo2, d1, d2]
          ++ [h1, h2, mi1, mi2]).all Char.isDigit = true := by
        rw [List.all_append, Bool.and_eq_true]; exact ⟨hD, hT4⟩
      exact h10
    simp only [strptimeMin, hall, if_true, mkDatetime]
    rw [if_pos ⟨hmo1, hmo2, hd1, hd2, hh, hmi, Nat.zero_le 59⟩]
  · have heq : tag ++ "_HiResT_".toList ++ [y1, y2, mo1, mo2, d1, d2]
        ++ "UTC".toList ++ [h1, h2, mi1, mi2, s1, s2] ++ ".jpg".toList
        = tag ++ '_' :: ("HiResT_".toList ++ ([y1, y2, mo1, mo2, d1, d2]
            ++ ('U' :: 'T' :: 'C' :: ([h1, h2, mi1, mi2, s1, s2]
              ++ ('.' :: ("jpg".toList ++ [])))))) := by
      simp only [List.append_assoc]; rfl
    unfold matchHiRes
    rw [heq]
    exact matchGrammar_append "HiResT_".toList "jpg".toList tag
      [y1, y2, mo1, mo2, d1, d2] [h1, h2, mi1, mi2, s1, s2] [] htag hu hD hT6
  · have hall : [y1, y2, mo1, mo2, d1, d2, h1, h2, mi1, mi2, s1, s2].all Char.isDigit
        = true := hdig
    simp only [strptimeSec, hall, if_true, mkDatetime]
    rw [if_pos ⟨hmo1, hmo2, hd1, hd2, hh, hmi, hs⟩]

/-- Witness for C8 at `G1_LoResT_250411UTC0700.jpg` and
`G1_HiResT_250410UTC144140.jpg` (digits from the source's own comments). -/
theorem lores_hires_parser_roundtrip_witness :
    matchLoRes "G1_LoResT_250411UTC1441.jpg".toList
      = some ("G1".toList, "250411".toList, "1441".toList)
    ∧ strptimeMin "250411".toList "1441".toList
      = some ⟨fullYear (pairVal '2' '5'), pairVal '0' '4', pairVal '1' '1',
          pairVal '1' '4', pairVal '4' '1', 0⟩
    ∧ matchHiRes "G1_HiResT_250411UTC144140.jpg".toList
      = some ("G1".toList, "250411".toList, "144140".toList)
    ∧ strptimeSec "250411".toList "144140".toList
      = some ⟨fullYear (pairVal '2' '5'), pairVal '0' '4', pairVal '1' '1',
          pairVal '1' '4', pairVal '4' '1', pairVal '4' '0'⟩ :=
  lores_hires_parser_roundtrip "G1".toList '2' '5' '0' '4' '1' '1' '1' '4' '4' '1' '4' '0'
    (by decide) (by decide) (by decide) (by decide) (by decide) (by decide)
    (by decide) (by decide) (by decide) (by decide)

/-! ## Claim about audio timestamp reconstruction -/

/-- C1: for every audio listing line whose bare filename matches
`<tag>_Audio_<2-digit-day>UTC<6-digit-time>.wav` and a `YYMMDD` requested
date, the record's timestamp takes year and month from the first four
characters of the requested date, day from the filename's day digits, and
hour/minute/second from the filename's six time digits. -/
theorem audio_timestamp_reconstruction
    (fileServer station remoteDir line tag : List Char)
    (r1 r2 r3 r4 r5 r6 da db h1 h2 mi1 mi2 s1 s2 : Char)
    (hbn : basename (normalizeSeps (pyStrip line))
      = tag ++ "_Audio_".toList ++ [da, db] ++ "UTC".toList
          ++ [h1, h2, mi1, mi2, s1, s2] ++ ".wav".toList)
    (htag : tag ≠ []) (hu : ∀ c ∈ tag, c ≠ '_')
    (hdig : [r1, r2, r3, r4, r5, r6, da, db,
        h1, h2, mi1, mi2, s1, s2].all Char.isDigit = true)
    (hmo1 : 1 ≤ pairVal r3 r4) (hmo2 : pairVal r3 r4 ≤ 12)
    (hd1 : 1 ≤ pairVal da db)
    (hd2 : pairVal da db ≤ daysInMonth (fullYear (pairVal r1 r2)) (pairVal r3 r4))
    (hh : pairVal h1 h2 ≤ 23) (hmi : pairVal mi1 mi2 ≤ 59) (hs : pairVal s1 s2 ≤ 59) :
    parseWavLine fileServer station remoteDir [r1, r2, r3, r4, r5, r6] line
      = .ok (some ⟨station,
          ⟨fullYear (pairVal r1 r2), pairVal r3 r4, pairVal da db,
            pairVal h1 h2, pairVal mi1 mi2, pairVal s1 s2⟩,
          basename (normalizeSeps (pyStrip line)),
          mkUrl fileServer station remoteDir (normalizeSeps (pyStrip line)),
          normalizeSeps (pyStrip line)⟩) := by
  have hsplit : ([r1, r2, r3, r4] ++ ([r5, r6] ++ ([da, db]
      ++ [h1, h2, mi1, mi2, s1, s2]))).all Char.isDigit = true := hdig
  rw [List.all_append, List.all_append, List.all_append, Bool.and_eq_true,
    Bool.and_eq_true, Bool.and_eq_true] at hsplit
  obtain ⟨hA4, hR56, hDay, hT6⟩ := hsplit
  have hall' : [r1, r2, r3, r4, da, db,
      h1, h2, mi1, mi2, s1, s2].all Char.isDigit = true := by
    have : ([r1, r2, r3, r4] ++ ([da, db]
        ++ [h1, h2, mi1, mi2, s1, s2])).all Char.isDigit = true := by
      rw [List.all_append, List.all_append, Bool.and_eq_true, Bool.and_eq_true]
      exact ⟨hA4, hDay, hT6⟩
    exact this
  have hmatch : matchWav (tag ++ "_Audio_".toList ++ [da, db] ++ "UTC".toList
      ++ [h1, h2, mi1, mi2, s1, s2] ++ ".wav".toList)
      = some (tag, [da, db], [h1, h2, mi1, mi2, s1, s2]) := by
    have heq : tag ++ "_Audio_".toList ++ [da, db] ++ "UTC".toList
        ++ [h1, h2, mi1, mi2, s1, s2] ++ ".wav".toList
        = tag ++ '_' :: ("Audio_".toList ++ ([da, db]
            ++ ('U' :: 'T' :: 'C' :: ([h1, h2, mi1, mi2, s1, s2]
              ++ ('.' :: ("wav".toList ++ [])))))) := by
      simp only [List.append_assoc]; rfl
    unfold matchWav
    rw [heq]
    exact matchGrammar_append "Audio_".toList "wav".toList tag [da, db]
      [h1, h2, mi1, mi2, s1, s2] [] htag hu hDay hT6
  have hstp : strptimeSec (List.take 4 [r1, r2, r3, r4, r5, r6] ++ [da, db])
      [h1, h2, mi1, mi2, s1, s2]
      = some ⟨fullYear (pairVal r1 r2), pairVal r3 r4, pairVal da db,
          pairVal h1 h2, pairVal mi1 mi2, pairVal s1 s2⟩ := by
    show strptimeSec [r1, r2, r3, r4, da, db] [h1, h2, mi1, mi2, s1, s2] = _
    simp only [strptimeSec, hall', if_true, mkDatetime]
    rw [if_pos ⟨hmo1, hmo2, hd1, hd2, hh, hmi, hs⟩]
  simp only [parseWavLine, hbn, hmatch, hstp]

/-- Witness for C1: the spec's own example — date `250729` with
`G8_Audio_29UTC223440.wav` yields 2025-07-29T22:34:40. -/
theorem audio_timestamp_reconstruction_witness :
    parseWavLine "http://proxy".toList "Duronia".toList "C:/htdocs/VLF".toList
        "250729".toList "C:\\htdocs\\VLF\\Wav\\G8_Audio_29UTC223440.wav".toList
      = .ok (some ⟨"Duronia".toList, ⟨2025, 7, 29, 22, 34, 40⟩,
          "G8_Audio_29UTC223440.wav".toList,
          "http://proxy/Duronia/Wav/G8_Audio_29UTC223440.wav".toList,
          "C:/htdocs/VLF/Wav/G8_Audio_29UTC223440.wav".toList⟩) :=
  audio_timestamp_reconstruction "http://proxy".toList "Duronia".toList
    "C:/htdocs/VLF".toList "C:\\htdocs\\VLF\\Wav\\G8_Audio_29UTC223440.wav".toList
    "G8".toList '2' '5' '0' '7' '2' '9' '2' '9' '2' '2' '3' '4' '4' '0'
    (by decide) (by decide) (by decide) (by decide) (by decide) (by decide)
    (by decide) (by decide) (by decide) (by decide) (by decide)

/-! ## Claim about URL construction -/

theorem isPrefixOf_eq_true (l1 : List Char) :
    ∀ l2 : List Char, l1 <+: l2 → l1.isPrefixOf l2 = true := by
  induction l1 with
  | nil => intro l2 _; cases l2 <;> rfl
  | cons c cs ih =>
    intro l2 h
    cases l2 with
    | nil =>
      obtain ⟨t, ht⟩ := h
      cases ht
    | cons d ds =>
      rw [List.cons_prefix_cons] at h
      simp [List.isPrefixOf, h.1, ih ds h.2]

theorem replaceFirst_eq_drop (old s : List Char) (h : old <+: s) :
    replaceFirst old s = s.drop old.length := by
  cases s with
  | nil =>
    obtain ⟨t, ht⟩ := h
    have : old = [] := (List.append_eq_nil.mp ht).1
    subst this; rfl
  | cons c rest =>
    have hb : old.isPrefixOf (c :: rest) = true := isPrefixOf_eq_true old _ h
    simp [replaceFirst, hb]

theorem mkUrl_eq_of_root (fileServer station remoteDir fullPath : List Char)
    (h : trimTrailingSlash (normalizeSeps remoteDir) <+: fullPath) :
    mkUrl fileServer station remoteDir fullPath
      = fileServer ++ '/' :: station ++ '/' ::
          ((fullPath.drop (trimTrailingSlash (normalizeSeps remoteDir)).length).dropWhile
            (fun c => c = '/')) := by
  simp only [mkUrl,  replaceFirst_eq_drop _ _ h]

/-- C7: when the separator-normalized full path starts with the
normalized, trailing-slash-trimmed remote root, the record's url is
`<file-server-base>/<station>/<relative-path>` with the root prefix
removed and leading slashes stripped — for both record kinds. -/
theorem url_shape_strips_remote_root
    (fileServer station remoteDir reqDate line : List Char) (f : Frame) (w : WavFile)
    (hpre : trimTrailingSlash (normalizeSeps remoteDir) <+: normalizeSeps (pyStrip line)) :
    (parseFrameLine fileServer station remoteDir line = .ok (some f) →
      f.url = fileServer ++ '/' :: station ++ '/' ::
        (((normalizeSeps (pyStrip line)).drop
            (trimTrailingSlash (normalizeSeps remoteDir)).length).dropWhile
          (fun c => c = '/')))
    ∧ (parseWavLine fileServer station remoteDir reqDate line = .ok (some w) →
      w.url = fileServer ++ '/' :: station ++ '/' ::
        (((normalizeSeps (pyStrip line)).drop
            (trimTrailingSlash (normalizeSeps remoteDir)).length).dropWhile
          (fun c => c = '/'))) := by
  constructor
  · intro h
    simp only [parseFrameLine] at h
    split at h
    · split at h
      · injection h with h'; injection h' with h''
        subst h''
        exact mkUrl_eq_of_root fileServer station remoteDir _ hpre
      · exact absurd h (by simp)
    · split at h
      · split at h
        · injection h with h'; injection h' with h''
          subst h''
          exact mkUrl_eq_of_root fileServer station remoteDir _ hpre
        · exact absurd h (by simp)
      · exact absurd h (by simp)
  · intro h
    simp only [parseWavLine] at h
    split at h
    · split at h
      · injection h with h'; injection h' with h''
        subst h''
        exact mkUrl_eq_of_root fileServer station remoteDir _ hpre
      · exact absurd h (by simp)
    · exact absurd h (by simp)

/-- Witness for C7: concrete frame and wav lines under the root
`C:/htdocs/VLF/` (with a trailing slash to exercise the trimming). -/
theorem url_shape_strips_remote_root_witness :
    (trimTrailingSlash (normalizeSeps "C:/htdocs/VLF/".toList)
      <+: normalizeSeps (pyStrip "C:\\htdocs\\VLF\\LoRes\\G1_LoResT_250411UTC0700.jpg".toList))
    ∧ (parseFrameLine "http://proxy".toList "Duronia".toList "C:/htdocs/VLF/".toList
        "C:\\htdocs\\VLF\\LoRes\\G1_LoResT_250411UTC0700.jpg".toList
        = .ok (some ⟨"Duronia".toList, "LoRes".toList, ⟨2025, 4, 11, 7, 0, 0⟩,
            "http://proxy/Duronia/LoRes/G1_LoResT_250411UTC0700.jpg".toList⟩) →
      Frame.url ⟨"Duronia".toList, "LoRes".toList, ⟨2025, 4, 11, 7, 0, 0⟩,
          "http://proxy/Duronia/LoRes/G1_LoResT_250411UTC0700.jpg".toList⟩
        = "http://proxy".toList ++ '/' :: "Duronia".toList ++ '/' ::
            (((normalizeSeps (pyStrip "C:\\htdocs\\VLF\\LoRes\\G1_LoResT_250411UTC0700.jpg".toList)).drop
                (trimTrailingSlash (normalizeSeps "C:/htdocs/VLF/".toList)).length).dropWhile
              (fun c => c = '/'))) := by
  have hpre : trimTrailingSlash (normalizeSeps "C:/htdocs/VLF/".toList)
      <+: normalizeSeps (pyStrip "C:\\htdocs\\VLF\\LoRes\\G1_LoResT_250411UTC0700.jpg".toList) := by
    decide
  exact ⟨hpre,
    (url_shape_strips_remote_root "http://proxy".toList "Duronia".toList
      "C:/htdocs/VLF/".toList "250411".toList
      "C:\\htdocs\\VLF\\LoRes\\G1_LoResT_250411UTC0700.jpg".toList
      ⟨"Duronia".toList, "LoRes".toList, ⟨2025, 4, 11, 7, 0, 0⟩,
        "http://proxy/Duronia/LoRes/G1_LoResT_250411UTC0700.jpg".toList⟩
      ⟨"Duronia".toList, ⟨2025, 4, 11, 7, 0, 0⟩, [], [], []⟩ hpre).1⟩

/-! ## Claim about unmatched filenames -/

theorem framesParse_eq_filterMap (fileServer station remoteDir : List Char)
    (lines : List (List Char))
    (h : ∀ l ∈ lines, parseFrameLine fileServer station remoteDir l ≠ .error ()) :
    framesParse fileServer station remoteDir lines
      = .ok (lines.filterMap (recordOfF fileServer station remoteDir)) := by
  induction lines with
  | nil => rfl
  | cons l ls ih =>
    have hl : parseFrameLine fileServer station remoteDir l ≠ .error () :=
      h l (List.mem_cons_self _ _)
    have hls := ih (fun x hx => h x (List.mem_cons_of_mem _ hx))
    cases hp : parseFrameLine fileServer station remoteDir l with
    | error e => cases e; exact absurd hp hl
    | ok o =>
      cases o with
      | none => simp [framesParse, List.filterMap_cons, recordOfF, hp, hls]
      | some f => simp [framesParse, List.filterMap_cons, recordOfF, hp, hls]

theorem wavsParse_eq_filterMap (fileServer station remoteDir reqDate : List Char)
    (lines : List (List Char))
    (h : ∀ l ∈ lines, parseWavLine fileServer station remoteDir reqDate l ≠ .error ()) :
    wavsParse fileServer station remoteDir reqDate lines
      = .ok (lines.filterMap (recordOfW fileServer station remoteDir reqDate)) := by
  induction lines with
  | nil => rfl
  | cons l ls ih =>
    have hl : parseWavLine fileServer station remoteDir reqDate l ≠ .error () :=
      h l (List.mem_cons_self _ _)
    have hls := ih (fun x hx => h x (List.mem_cons_of_mem _ hx))
    cases hp : parseWavLine fileServer station remoteDir reqDate l with
    | error e => cases e; exact absurd hp hl
    | ok o =>
      cases o with
      | none => simp [wavsParse, List.filterMap_cons, recordOfW, hp, hls]
      | some w => simp [wavsParse, List.filterMap_cons, recordOfW, hp, hls]

theorem recordOfF_isSome_iff_matches (fileServer station remoteDir l : List Char)
    (hl : parseFrameLine fileServer station remoteDir l ≠ .error ()) :
    (recordOfF fileServer station remoteDir l).isSome = lineMatchesF l := by
  cases hm1 : matchLoRes (basename (normalizeSeps (pyStrip l))) with
  | some m =>
    cases hs1 : strptimeMin m.2.1 m.2.2 with
    | some ts => simp [recordOfF, parseFrameLine, lineMatchesF, hm1, hs1]
    | none => exact absurd (by simp [parseFrameLine, hm1, hs1]) hl
  | none =>
    cases hm2 : matchHiRes (basename (normalizeSeps (pyStrip l))) with
    | some m =>
      cases hs2 : strptimeSec m.2.1 m.2.2 with
      | some ts => simp [recordOfF, parseFrameLine, lineMatchesF, hm1, hm2, hs2]
      | none => exact absurd (by simp [parseFrameLine, hm1, hm2, hs2]) hl
    | none => simp [recordOfF, parseFrameLine, lineMatchesF, hm1, hm2]

theorem recordOfW_isSome_iff_matches (fileServer station remoteDir reqDate l : List Char)
    (hl : parseWavLine fileServer station remoteDir reqDate l ≠ .error ()) :
    (recordOfW fileServer station remoteDir reqDate l).isSome = lineMatchesW l := by
  cases hm : matchWav (basename (normalizeSeps (pyStrip l))) with
  | some m =>
    cases hs1 : strptimeSec (reqDate.take 4 ++ m.2.1) m.2.2 with
    | some ts => simp [recordOfW, parseWavLine, lineMatchesW, hm, hs1]
    | none => exact absurd (by simp [parseWavLine, hm, hs1]) hl
  | none => simp [recordOfW, parseWavLine, lineMatchesW, hm]

/-- C9: a line whose filename matches no grammar is dropped and processing
continues — the parse loops never fail because of an unmatched filename —
and (whenever the matched lines' digit fields parse, so the request
completes) the final sorted result holds one record per line exactly for
the lines whose filename matched a grammar, for both endpoints. -/
theorem unmatched_lines_skipped_record_iff_match
    (fileServer station remoteDir reqDate : List Char)
    (linesF linesW : List (List Char))
    (hF : ∀ l ∈ linesF, parseFrameLine fileServer station remoteDir l ≠ .error ())
    (hW : ∀ l ∈ linesW, parseWavLine fileServer station remoteDir reqDate l ≠ .error ()) :
    framesCompute fileServer station remoteDir linesF
      = .ok (List.insertionSort frameDesc
          (linesF.filterMap (recordOfF fileServer station remoteDir)))
    ∧ (∀ f : Frame,
        f ∈ List.insertionSort frameDesc
            (linesF.filterMap (recordOfF fileServer station remoteDir))
        ↔ f ∈ linesF.filterMap (recordOfF fileServer station remoteDir))
    ∧ (∀ l ∈ linesF, (recordOfF fileServer station remoteDir l).isSome = lineMatchesF l)
    ∧ wavsCompute fileServer station remoteDir reqDate linesW
      = .ok (List.insertionSort wavDesc
          (linesW.filterMap (recordOfW fileServer station remoteDir reqDate)))
    ∧ (∀ w : WavFile,
        w ∈ List.insertionSort wavDesc
            (linesW.filterMap (recordOfW fileServer station remoteDir reqDate))
        ↔ w ∈ linesW.filterMap (recordOfW fileServer station remoteDir reqDate))
    ∧ (∀ l ∈ linesW,
        (recordOfW fileServer station remoteDir reqDate l).isSome = lineMatchesW l) := by
  refine ⟨?_, ?_, ?_, ?_, ?_, ?_⟩
  · simp [framesCompute, framesParse_eq_filterMap fileServer station remoteDir linesF hF,
      Except.map]
  · exact fun f => (List.perm_insertionSort frameDesc _).mem_iff
  · exact fun l hl => recordOfF_isSome_iff_matches fileServer station remoteDir l (hF l hl)
  · simp [wavsCompute,
      wavsParse_eq_filterMap fileServer station remoteDir reqDate linesW hW, Except.map]
  · exact fun w => (List.perm_insertionSort wavDesc _).mem_iff
  · exact fun l hl =>
      recordOfW_isSome_iff_matches fileServer station remoteDir reqDate l (hW l hl)

/-- Witness for C9: each endpoint given one well-formed line and one line
(`junk.txt`) matching no grammar; the run completes and keeps exactly the
matching line's record. -/
theorem unmatched_lines_skipped_record_iff_match_witness :
    framesCompute "F".toList "S".toList "C:/VLF".toList
        ["C:\\VLF\\LoRes\\G1_LoResT_250411UTC0700.jpg".toList,
          "C:\\VLF\\LoRes\\junk.txt".toList]
      = .ok (List.insertionSort frameDesc
          (["C:\\VLF\\LoRes\\G1_LoResT_250411UTC0700.jpg".toList,
            "C:\\VLF\\LoRes\\junk.txt".toList].filterMap
            (recordOfF "F".toList "S".toList "C:/VLF".toList)))
    ∧ (∀ l ∈ ["C:\\VLF\\LoRes\\G1_LoResT_250411UTC0700.jpg".toList,
          "C:\\VLF\\LoRes\\junk.txt".toList],
        (recordOfF "F".toList "S".toList "C:/VLF".toList l).isSome = lineMatchesF l) :=
  ⟨(unmatched_lines_skipped_record_iff_match "F".toList "S".toList "C:/VLF".toList
      "250411".toList
      ["C:\\VLF\\LoRes\\G1_LoResT_250411UTC0700.jpg".toList,
        "C:\\VLF\\LoRes\\junk.txt".toList] []
      (by decide) (by decide)).1,
   (unmatched_lines_skipped_record_iff_match "F".toList "S".toList "C:/VLF".toList
      "250411".toList
      ["C:\\VLF\\LoRes\\G1_LoResT_250411UTC0700.jpg".toList,
        "C:\\VLF\\LoRes\\junk.txt".toList] []
      (by decide) (by decide)).2.2.1⟩

/-! ## Claim about search-result de-duplication -/

theorem dedupGo_mem {α : Type} [DecidableEq α] (l : List α) :
    ∀ (seen : List α) (x : α), x ∈ dedupGo seen l ↔ x ∈ l ∧ x ∉ seen := by
  induction l with
  | nil => intro seen x; simp [dedupGo]
  | cons y ys ih =>
    intro seen x
    by_cases hy : y ∈ seen
    · rw [dedupGo, if_pos hy, ih]
      simp only [List.mem_cons]
      constructor
      · exact fun hp => ⟨Or.inr hp.1, hp.2⟩
      · rintro ⟨hm | hm, hns⟩
        · exact absurd (hm ▸ hy) hns
        · exact ⟨hm, hns⟩
    · rw [dedupGo, if_neg hy]
      simp only [List.mem_cons, ih, List.mem_cons]
      constructor
      · rintro (hm | ⟨hm, hns⟩)
        · exact ⟨Or.inl hm, by rw [hm]; exact hy⟩
        · exact ⟨Or.inr hm, fun hx => hns (Or.inr hx)⟩
      · rintro ⟨hm | hm, hns⟩
        · exact Or.inl hm
        · by_cases hxy : x = y
          · exact Or.inl hxy
          · exact Or.inr ⟨hm, fun hx => hx.elim hxy hns⟩

theorem dedupGo_nodup {α : Type} [DecidableEq α] (l : List α) :
    ∀ seen : List α, (dedupGo seen l).Nodup := by
  induction l with
  | nil => intro seen; simp [dedupGo]
  | cons y ys ih =>
    intro seen
    by_cases hy : y ∈ seen
    · rw [dedupGo, if_pos hy]; exact ih seen
    · rw [dedupGo, if_neg hy]
      refine List.nodup_cons.mpr ⟨?_, ih (y :: seen)⟩
      intro hmem
      exact ((dedupGo_mem ys (y :: seen) y).mp hmem).2 (List.mem_cons_self _ _)

theorem dedupGo_sublist {α : Type} [DecidableEq α] (l : List α) :
    ∀ seen : List α, List.Sublist (dedupGo seen l) l := by
  induction l with
  | nil => intro seen; simp [dedupGo]
  | cons y ys ih =>
    intro seen
    by_cases hy : y ∈ seen
    · rw [dedupGo, if_pos hy]; exact (ih seen).cons y
    · rw [dedupGo, if_neg hy]; exact (ih (y :: seen)).cons₂ y

theorem dedupGo_eq_dedupRec {α : Type} [DecidableEq α] (l : List α) :
    ∀ seen : List α,
      dedupGo seen l = dedupRec (l.filter (fun y => decide (y ∉ seen))) := by
  induction l with
  | nil => intro seen; simp [dedupGo, dedupRec]
  | cons y ys ih =>
    intro seen
    by_cases hy : y ∈ seen
    · have hd : (decide (y ∉ seen)) = false := by simp [hy]
      rw [dedupGo, if_pos hy, List.filter_cons, hd]
      simp only [Bool.false_eq_true, if_false]
      exact ih seen
    · have hd : (decide (y ∉ seen)) = true := by simp [hy]
      have hfe : List.filter (fun z => decide (z ∉ y :: seen)) ys
          = List.filter (fun a => decide (a ≠ y) && decide (a ∉ seen)) ys := by
        apply List.filter_congr
        intro x _
        by_cases hxy : x = y
        · simp [hxy, List.mem_cons]
        · by_cases hxs : x ∈ seen <;> simp [List.mem_cons, hxy, hxs]
      rw [dedupGo, if_neg hy]
      simp only [List.filter_cons, hd, if_true]
      rw [dedupRec, ih (y :: seen), hfe, List.filter_filter]

theorem dedupF_eq_dedupRec {α : Type} [DecidableEq α] (l : List α) :
    dedupF l = dedupRec l := by
  rw [dedupF, dedupGo_eq_dedupRec l []]
  congr 1
  simp

/-- C4 (amended): the `/wavs` search de-duplicates the collected full-path
lines before normalization — the surviving lines are exactly the first
occurrences, in order (`dedupRec`), duplicate-free, a sublist of the
collected lines, and complete for membership. (`/frames` performs no such
de-duplication; see the counterexample.) -/
theorem wavs_lines_deduped_first_occurrence
    (remoteDir : List Char) (o1 o2 o3 : List (List Char)) :
    wavsSearchLines remoteDir o1 o2 o3 = dedupRec (wavsCollect remoteDir o1 o2 o3)
    ∧ (wavsSearchLines remoteDir o1 o2 o3).Nodup
    ∧ List.Sublist (wavsSearchLines remoteDir o1 o2 o3) (wavsCollect remoteDir o1 o2 o3)
    ∧ ∀ x, x ∈ wavsSearchLines remoteDir o1 o2 o3
        ↔ x ∈ wavsCollect remoteDir o1 o2 o3 :=
  ⟨dedupF_eq_dedupRec _,
   dedupGo_nodup _ [],
   dedupGo_sublist _ [],
   fun x => by
    rw [wavsSearchLines, dedupF, dedupGo_mem]
    simp⟩

/-- Counterexample to C4 as stated: `/frames` hands its collected lines to
normalization without de-duplicating, so a listing line occurring twice
yields the same record twice in the final result. -/
theorem frames_lines_not_deduped_counterexample :
    framesCompute "F".toList "S".toList "C:/VLF".toList
        (framesCollect "C:/VLF".toList
          ["G1_LoResT_250411UTC0700.jpg".toList, "G1_LoResT_250411UTC0700.jpg".toList] [])
      = .ok [⟨"S".toList, "LoRes".toList, ⟨2025, 4, 11, 7, 0, 0⟩,
          "F/S/LoRes/G1_LoResT_250411UTC0700.jpg".toList⟩,
          ⟨"S".toList, "LoRes".toList, ⟨2025, 4, 11, 7, 0, 0⟩,
          "F/S/LoRes/G1_LoResT_250411UTC0700.jpg".toList⟩]
    ∧ ¬ ([⟨"S".toList, "LoRes".toList, ⟨2025, 4, 11, 7, 0, 0⟩,
          "F/S/LoRes/G1_LoResT_250411UTC0700.jpg".toList⟩,
          ⟨"S".toList, "LoRes".toList, ⟨2025, 4, 11, 7, 0, 0⟩,
          "F/S/LoRes/G1_LoResT_250411UTC0700.jpg".toList⟩] : List Frame).Nodup := by
  constructor
  · decide
  · decide

/-! ## Claim about unknown stations -/

theorem lookup_mem {α β : Type} [BEq α] [LawfulBEq α] {k : α} {v : β} :
    ∀ {m : List (α × β)}, List.lookup k m = some v → (k, v) ∈ m := by
  intro m
  induction m with
  | nil => intro h; cases h
  | cons p rest ih =>
    intro h
    obtain ⟨a, b⟩ := p
    rw [List.lookup_cons] at h
    cases hk : k == a with
    | true =>
      rw [hk] at h
      simp only [] at h
      have hka : k = a := eq_of_beq hk
      have hbv : b = v := by injection h
      subst hka; subst hbv
      exact List.mem_cons_self _ _
    | false =>
      rw [hk] at h
      simp only [] at h
      exact List.mem_cons_of_mem _ (ih h)

theorem cacheLookup_snd {β : Type} (dur : Nat) (key : List Char) (now : Nat)
    (m : CacheMap β) :
    (cacheLookup dur key now m).2 = m
    ∨ (cacheLookup dur key now m).2 = eraseKey key m := by
  unfold cacheLookup
  cases List.lookup key m with
  | none => exact Or.inl rfl
  | some v =>
    obtain ⟨data, t⟩ := v
    by_cases h : now - t < dur
    · simp [h]
    · simp [h]

theorem framesHandler_cache_mem
    (stations : List (List Char × StationCfg)) (remote : Option (List Frame))
    (station date : List Char) (now : Nat) (m : CacheMap Frame)
    (p : List Char × (List Frame × Nat))
    (hp : p ∈ (framesHandler stations remote station date now m).2.1) :
    p ∈ m ∨ (p.1 = frameKey station date
      ∧ ∃ cfg, List.lookup station stations = some cfg) := by
  have hm1 : ∀ (r : Option (List Frame)) (m1 : CacheMap Frame),
      cacheLookup FRAME_CACHE_DURATION (frameKey station date) now m = (r, m1) →
      ∀ q : List Char × (List Frame × Nat), q ∈ m1 → q ∈ m := by
    intro r m1 heq q hq
    rcases cacheLookup_snd FRAME_CACHE_DURATION (frameKey station date) now m with h2 | h2
    · rw [heq] at h2
      rw [← h2]
      exact hq
    · rw [heq] at h2
      have h2' : m1 = eraseKey _ m := h2
      rw [h2'] at hq
      exact List.mem_of_mem_filter hq
  unfold framesHandler at hp
  split at hp
  · next cached m1 heq => exact Or.inl (hm1 _ _ heq p hp)
  · next m1 heq =>
    split at hp
    · exact Or.inl (hm1 _ _ heq p hp)
    · next cfg hcfg =>
      split at hp
      · exact Or.inl (hm1 _ _ heq p hp)
      · split at hp
        · exact Or.inl (hm1 _ _ heq p hp)
        · next frames =>
          simp only [cacheInsert] at hp
          rcases List.mem_cons.mp hp with hph | hpt
          · right
            refine ⟨?_, cfg, hcfg⟩
            rw [hph]
          · exact Or.inl (hm1 _ _ heq p (List.mem_of_mem_filter hpt))

theorem wavsHandler_cache_mem
    (stations : List (List Char × StationCfg)) (remote : Option (List WavFile))
    (station date : List Char) (now : Nat) (m : CacheMap WavFile)
    (p : List Char × (List WavFile × Nat))
    (hp : p ∈ (wavsHandler stations remote station date now m).2.1) :
    p ∈ m ∨ (p.1 = wavKey station date
      ∧ ∃ cfg, List.lookup station stations = some cfg) := by
  have hm1 : ∀ (r : Option (List WavFile)) (m1 : CacheMap WavFile),
      cacheLookup WAV_CACHE_DURATION (wavKey station date) now m = (r, m1) →
      ∀ q : List Char × (List WavFile × Nat), q ∈ m1 → q ∈ m := by
    intro r m1 heq q hq
    rcases cacheLookup_snd WAV_CACHE_DURATION (wavKey station date) now m with h2 | h2
    · rw [heq] at h2
      rw [← h2]
      exact hq
    · rw [heq] at h2
      have h2' : m1 = eraseKey _ m := h2
      rw [h2'] at hq
      exact List.mem_of_mem_filter hq
  unfold wavsHandler at hp
  split at hp
  · next cached m1 heq => exact Or.inl (hm1 _ _ heq p hp)
  · next m1 heq =>
    split at hp
    · exact Or.inl (hm1 _ _ heq p hp)
    · next cfg hcfg =>
      split at hp
      · exact Or.inl (hm1 _ _ heq p hp)
      · split at hp
        · exact Or.inl (hm1 _ _ heq p hp)
        · next wavs =>
          simp only [cacheInsert] at hp
          rcases List.mem_cons.mp hp with hph | hpt
          · right
            refine ⟨?_, cfg, hcfg⟩
            rw [hph]
          · exact Or.inl (hm1 _ _ heq p (List.mem_of_mem_filter hpt))

theorem reach_cacheKeysGood (stations : List (List Char × StationCfg)) (c : Caches)
    (h : Reach stations (fun d => d.length = 6) c) :
    cacheKeysGood stations "frames_".toList c.frame
    ∧ cacheKeysGood stations [] c.wav := by
  induction h with
  | init =>
    constructor <;> (intro p hp; cases hp)
  | framesStep c remote station date now hr hP ih =>
    refine ⟨?_, ih.2⟩
    intro p hp
    rcases framesHandler_cache_mem stations remote station date now c.frame p hp with
      hin | ⟨hk, cfg, hcfg⟩
    · exact ih.1 p hin
    · exact ⟨station, date, cfg, hcfg, hP, hk⟩
  | wavsStep c remote station date now hr hP ih =>
    refine ⟨ih.1, ?_⟩
    intro p hp
    rcases wavsHandler_cache_mem stations remote station date now c.wav p hp with
      hin | ⟨hk, cfg, hcfg⟩
    · exact ih.2 p hin
    · exact ⟨station, date, cfg, hcfg, hP, hk⟩
  | clearStep c hr ih =>
    constructor <;> (intro p hp; cases hp)

theorem lookup_none_of_cacheKeysGood {β : Type}
    (stations : List (List Char × StationCfg)) (pre : List Char) (m : CacheMap β)
    (hg : cacheKeysGood stations pre m) (s0 d0 : List Char)
    (hs0 : List.lookup s0 stations = none) (hd0 : d0.length = 6) :
    List.lookup (pre ++ s0 ++ '_' :: d0) m = none := by
  cases hl : List.lookup (pre ++ s0 ++ '_' :: d0) m with
  | none => rfl
  | some v =>
    exfalso
    obtain ⟨s, d, cfg, hcfg, hdl, hk⟩ := hg _ (lookup_mem hl)
    have hkey : pre ++ s0 ++ '_' :: d0 = pre ++ s ++ '_' :: d := hk
    rw [List.append_assoc, List.append_assoc] at hkey
    have h1 : s0 ++ '_' :: d0 = s ++ '_' :: d := List.append_cancel_left hkey
    have h2 : s0 = s ∧ '_' :: d0 = '_' :: d :=
      List.append_inj' h1 (by simp [hd0, hdl])
    rw [h2.1] at hs0
    rw [hs0] at hcfg
    cases hcfg

/-- C6 (amended): as long as every request's date string is a 6-character
`YYMMDD`, no reachable cache state can serve a request for a station that
is not in the registry — the cache is consulted first but can never hold
an aliasing key — so such a request gets a 400 response, changes nothing,
and contacts no remote host. -/
theorem unknown_station_400_no_remote
    (stations : List (List Char × StationCfg)) (c : Caches)
    (h : Reach stations (fun d => d.length = 6) c)
    (station date : List Char) (rF : Option (List Frame)) (rW : Option (List WavFile))
    (now : Nat)
    (hs : List.lookup station stations = none) (hd : date.length = 6) :
    framesHandler stations rF station date now c.frame = (.err 400, c.frame, false)
    ∧ wavsHandler stations rW station date now c.wav = (.err 400, c.wav, false) := by
  obtain ⟨hgF, hgW⟩ := reach_cacheKeysGood stations c h
  have hlF : List.lookup (frameKey station date) c.frame = none :=
    lookup_none_of_cacheKeysGood stations "frames_".toList c.frame hgF station date hs hd
  have hlW : List.lookup (wavKey station date) c.wav = none :=
    lookup_none_of_cacheKeysGood stations [] c.wav hgW station date hs hd
  constructor
  · simp [framesHandler, cacheLookup, hlF, hs]
  · simp [wavsHandler, cacheLookup, hlW, hs]

/-- Witness for C6: the initial empty state with a one-station registry;
a request for the unregistered station `B` is rejected with 400 on both
endpoints without touching the remote. -/
theorem unknown_station_400_no_remote_witness :
    framesHandler [("A".toList, ⟨"h".toList, "u".toList, 22, "C:/VLF".toList⟩)]
        none "B".toList "250411".toList 5 ([] : CacheMap Frame)
      = (.err 400, ([] : CacheMap Frame), false)
    ∧ wavsHandler [("A".toList, ⟨"h".toList, "u".toList, 22, "C:/VLF".toList⟩)]
        none "B".toList "250411".toList 5 ([] : CacheMap WavFile)
      = (.err 400, ([] : CacheMap WavFile), false) :=
  unknown_station_400_no_remote
    [("A".toList, ⟨"h".toList, "u".toList, 22, "C:/VLF".toList⟩)] ⟨[], []⟩
    Reach.init "B".toList "250411".toList none none 5 (by decide) (by decide)

/-- Counterexample to C6 as stated: with arbitrary date strings the flat
cache keys alias — a completed request for registered station `A` with
date `B_250411` leaves a reachable state in which the unregistered
station `A_B` with date `250411` is answered 200 from the cache instead
of 400. -/
theorem unknown_station_alias_counterexample :
    Reach [("A".toList, (⟨"h".toList, "u".toList, 22, "C:/VLF".toList⟩ : StationCfg))]
      (fun _ => True)
      ⟨(wavsHandler [("A".toList, ⟨"h".toList, "u".toList, 22, "C:/VLF".toList⟩)]
          (some []) "A".toList "B_250411".toList 0 ([] : CacheMap WavFile)).2.1, []⟩
    ∧ List.lookup "A_B".toList
        [("A".toList, (⟨"h".toList, "u".toList, 22, "C:/VLF".toList⟩ : StationCfg))] = none
    ∧ (wavsHandler [("A".toList, ⟨"h".toList, "u".toList, 22, "C:/VLF".toList⟩)] none
        "A_B".toList "250411".toList 10
        (wavsHandler [("A".toList, ⟨"h".toList, "u".toList, 22, "C:/VLF".toList⟩)]
          (some []) "A".toList "B_250411".toList 0 ([] : CacheMap WavFile)).2.1).1
      = .ok [] := by
  refine ⟨?_, by decide, by decide⟩
  exact Reach.wavsStep ⟨[], []⟩ (some []) "A".toList "B_250411".toList 0
    Reach.init trivial

end Cassandra
